import Mathlib

/-!
Verification of the sample-construction pipeline of the Oxford-IIIT Pet
dataset module (torchvision/prototype/datasets/_builtin/oxford_iiit_pet.py).

The embedding works at the level of character lists so that every
definition is executable by the kernel.  Python library behaviour that the
module relies on (pathlib accessors, str.split, str.startswith, the int()
builtin, list indexing) is modelled faithfully below; the external
torchdata pipeline primitives, whose code is not part of this repository,
are modelled from the contracts the design document gives them.
-/

namespace OxfordPet

/-- Splits a character list at every occurrence of the separator, keeping
empty segments, like the Python str.split with an explicit separator.  The
result is always nonempty. -/
def splitOnChar (sep : Char) : List Char → List (List Char)
  | [] => [[]]
  | c :: cs =>
    match splitOnChar sep cs with
    | [] => [[c]]
    | g :: gs => if c = sep then [] :: g :: gs else (c :: g) :: gs

/-- The components of a POSIX path as pathlib computes them: the string is
split on the slash and empty components as well as single-dot components
are discarded. -/
def pathParts (p : String) : List String :=
  ((splitOnChar '/' p.toList).map String.mk).filter (fun s => !(s == "" || s == "."))

/-- pathlib Path(p).name: the last path component, or the empty string. -/
def pathName (p : String) : String :=
  ((pathParts p).getLast?).getD ""

/-- pathlib Path(p).parent.name: the next-to-last path component, or the
empty string. -/
def parentName (p : String) : String :=
  (((pathParts p).dropLast).getLast?).getD ""

/-- Splits a character list around its last dot: returns the part before
the last dot and the part after it, or none when no dot occurs.  The part
after the dot never contains a dot. -/
def splitLastDot : List Char → Option (List Char × List Char)
  | [] => none
  | c :: cs =>
    match splitLastDot cs with
    | some (pre, post) => some (c :: pre, post)
    | none => if c = '.' then some ([], cs) else none

/-- pathlib suffix of a file name, on character lists: the final extension
including its dot, empty when the only dot is the leading character or the
trailing character or when there is no dot. -/
def suffixCore (n : List Char) : List Char :=
  match splitLastDot n with
  | some (pre, post) => if pre = [] ∨ post = [] then [] else '.' :: post
  | none => []

/-- pathlib stem of a file name, on character lists: the name without its
final extension. -/
def stemCore (n : List Char) : List Char :=
  match splitLastDot n with
  | some (pre, post) => if pre = [] ∨ post = [] then n else pre
  | none => n

/-- pathlib Path(p).suffix. -/
def pySuffix (p : String) : String :=
  String.mk (suffixCore (pathName p).toList)

/-- pathlib Path(p).stem. -/
def pyStem (p : String) : String :=
  String.mk (stemCore (pathName p).toList)

/-- Python str.startswith. -/
def pyStartswith (s t : String) : Bool :=
  t.toList.isPrefixOf s.toList

/-- Decimal value of a digit list. -/
def digitsVal (ds : List Char) : Nat :=
  ds.foldl (fun a c => a * 10 + (c.toNat - 48)) 0

/-- Models the Python builtin int() on strings: an optional sign followed
by at least one decimal digit; anything else raises, which is rendered as
none.  The label fields fed to int() in this module are space-delimited
tokens, so the whitespace-padded and underscore-grouped literal forms that
Python additionally accepts do not arise and are not modelled. -/
def pyInt (s : String) : Option Int :=
  match s.toList with
  | '-' :: ds =>
    if !ds.isEmpty && ds.all Char.isDigit then some (-(digitsVal ds : Int)) else none
  | '+' :: ds =>
    if !ds.isEmpty && ds.all Char.isDigit then some ((digitsVal ds : Int)) else none
  | ds =>
    if !ds.isEmpty && ds.all Char.isDigit then some ((digitsVal ds : Int)) else none

/-- Python list indexing lst[i]: a negative index counts from the end; an
index that is still out of bounds after that adjustment raises IndexError,
rendered as none. -/
def pyListGet {α : Type} (l : List α) (i : Int) : Option α :=
  let j : Int := if i < 0 then i + l.length else i
  if 0 ≤ j then l.get? j.toNat else none

/-! ## Data model

A raw archive entry is a pair of a path and its (opaque) byte content,
both rendered as strings.  The parsed classification row and the final
sample mirror the dictionaries built by the Python module. -/

/-- One parsed row of a classification list file: the fieldnames the
module passes to the parser. -/
structure ClsRec where
  image_id : String
  label : String
  species : String
deriving DecidableEq

/-- The Label feature built by the module: the zero-based index together
with the category string looked up in the category table. -/
structure LabelV where
  index : Int
  category : String
deriving DecidableEq

/-- The output record assembled by OxfordIITPet._collate_and_decode_sample. -/
structure Sample where
  label : LabelV
  species : String
  segmentation_path : String
  segmentation : String
  image_path : String
  image : String
deriving DecidableEq

/-! ## The functions of oxford_iiit_pet.py -/

/-- OxfordIITPet._classify_anns: routes an annotation-archive entry by the
name of the parent directory of its path. -/
def classifyAnns (d : String × String) : Option Nat :=
  if parentName d.1 = "annotations" then some 0
  else if parentName d.1 = "trimaps" then some 1
  else none

/-- OxfordIITPet._filter_images: keeps an entry when the pathlib suffix of
its path is ".jpg". -/
def filterImages (d : String × String) : Bool :=
  pySuffix d.1 == ".jpg"

/-- OxfordIITPet._filter_segmentations: drops an entry when its file name
starts with a dot. -/
def filterSegmentations (d : String × String) : Bool :=
  !(pyStartswith (pathName d.1) ".")

/-- OxfordIITPet._decode_classification_data: label_idx = int(label) - 1,
the category is looked up at label_idx in the category table with Python
list indexing, and the species string is "cat" exactly when the species
field is "1".  A failing int() or a failing lookup raises, rendered as an
error value that propagates. -/
def decodeClassificationData (cats : List String) (data : ClsRec) :
    Except String (LabelV × String) :=
  match pyInt data.label with
  | none => Except.error "invalid literal for int()"
  | some v =>
    match pyListGet cats (v - 1) with
    | none => Except.error "list index out of range"
    | some c =>
      Except.ok (⟨v - 1, c⟩, if data.species = "1" then "cat" else "dog")

/-- Applies the optional decoder to a raw buffer, the buffer passing
through unchanged when no decoder is supplied. -/
def applyDecoder (dec : Option (String → String)) (buf : String) : String :=
  match dec with
  | some d => d buf
  | none => buf

/-- OxfordIITPet._collate_and_decode_sample: unpacks the doubly joined
tuple ((classification row, segmentation entry), image entry) and builds
the sample record. -/
def collateAndDecodeSample (cats : List String) (dec : Option (String → String))
    (data : (ClsRec × (String × String)) × (String × String)) : Except String Sample :=
  match decodeClassificationData cats data.1.1 with
  | Except.error e => Except.error e
  | Except.ok (lv, sp) =>
    Except.ok ⟨lv, sp, data.1.2.1, applyDecoder dec data.1.2.2,
               data.2.1, applyDecoder dec data.2.2⟩

/-! ## External pipeline primitives

The torchdata operators the module composes (Filter, Mapper,
Demultiplexer, CSVDictParser, IterKeyZipper) are library code that is not
part of this repository; they are modelled from the contracts stated in
the design document. -/

/-- Error-propagating map over a list: the first failing element aborts
the traversal, matching the first exception raised when the lazy Python
pipeline is drained. -/
def exceptMapList {α β : Type} (f : α → Except String β) : List α → Except String (List β)
  | [] => Except.ok []
  | a :: l =>
    match f a with
    | Except.error e => Except.error e
    | Except.ok b =>
      match exceptMapList f l with
      | Except.error e => Except.error e
      | Except.ok bs => Except.ok (b :: bs)

/-- Modelled from the spec: the external Demultiplexer primitive splits
one input sequence into two output sequences according to the per-entry
classifier, and with drop_none entries classified as none appear in
neither output. -/
def demultiplex (classify : String × String → Option Nat)
    (l : List (String × String)) : List (String × String) × List (String × String) :=
  (l.filter (fun d => classify d == some 0),
   l.filter (fun d => classify d == some 1))

/-- The nonempty lines of a text file, in order. -/
def linesOf (content : String) : List String :=
  ((splitOnChar '\n' content.toList).map String.mk).filter (fun ln => ln != "")

/-- Modelled from the spec: one line of a classification list holds the
whitespace-delimited fields (image_id, label, species, breed_id), of which
only the first three populate the record; a line with the wrong field
count is a hard error that propagates. -/
def parseClsLine (line : String) : Except String ClsRec :=
  match (splitOnChar ' ' line.toList).map String.mk with
  | [i, l, s, _] => Except.ok ⟨i, l, s⟩
  | _ => Except.error ("malformed classification line: " ++ line)

/-- Modelled from the spec: the external CSVDictParser primitive parses
every nonempty line of a classification list file into one record,
propagating the error of any malformed line. -/
def parseClsFile (content : String) : Except String (List ClsRec) :=
  exceptMapList parseClsLine (linesOf content)

/-- Modelled from the spec: the classification stream is the
concatenation, in entry order, of the rows parsed from each selected
classification list entry. -/
def csvDictParse (entries : List (String × String)) : Except String (List ClsRec) :=
  match exceptMapList (fun e => parseClsFile e.2) entries with
  | Except.error e => Except.error e
  | Except.ok ls => Except.ok ls.flatten

/-- Modelled from the spec: the external IterKeyZipper primitive performs
an inner join in source order; each source item is paired with the
reference item carrying the same key, items without a match on either
side are silently dropped, and the duplicate-key policy, which the design
document leaves unspecified, is modelled as first match. -/
def iterKeyZipper {α β : Type} (src : List α) (ref : List β)
    (key : α → String) (refKey : β → String) : List (α × β) :=
  src.filterMap (fun a => (ref.find? (fun b => refKey b == key a)).map (fun b => (a, b)))

/-- OxfordIITPet._make_datapipe for a given split, category table and
optional decoder, over the two raw entry sequences (images archive,
annotations archive).  The sharding and shuffling hints are identity
markers for the surrounding training loop and do not reorder the
sequence, so they are not represented. -/
def makeDatapipe (split : String) (cats : List String)
    (dec : Option (String → String))
    (images anns : List (String × String)) : Except String (List Sample) :=
  let imagesDp := images.filter filterImages
  let scDp := ((demultiplex classifyAnns anns).1).filter
    (fun d => pathName d.1 == split ++ ".txt")
  match csvDictParse scDp with
  | Except.error e => Except.error e
  | Except.ok rows =>
    let segDp := ((demultiplex classifyAnns anns).2).filter filterSegmentations
    let annsDp := iterKeyZipper rows segDp (fun r => r.image_id) (fun e => pyStem e.1)
    let dp := iterKeyZipper annsDp imagesDp (fun x => x.1.image_id) (fun e => pyStem e.1)
    exceptMapList (collateAndDecodeSample cats dec) dp

/-! ## Helper lemmas -/

theorem splitLastDot_eq_none {n : List Char} :
    splitLastDot n = none ↔ '.' ∉ n := by
  induction n with
  | nil => simp [splitLastDot]
  | cons c cs ih =>
    rw [splitLastDot]
    cases hc : splitLastDot cs with
    | some pr =>
      obtain ⟨a, b⟩ := pr
      have hmem : '.' ∈ cs := by
        by_contra hno
        rw [ih.mpr hno] at hc
        exact Option.noConfusion hc
      simp [hmem]
    | none =>
      have hno : '.' ∉ cs := ih.mp hc
      by_cases hdot : c = '.'
      · simp [hdot]
      · simp [hdot, hno, Ne.symm hdot]

theorem splitLastDot_eq_some {n pre post : List Char}
    (h : splitLastDot n = some (pre, post)) :
    n = pre ++ '.' :: post ∧ '.' ∉ post := by
  induction n generalizing pre with
  | nil => simp [splitLastDot] at h
  | cons c cs ih =>
    rw [splitLastDot] at h
    cases hc : splitLastDot cs with
    | some pr =>
      obtain ⟨pre', post'⟩ := pr
      rw [hc] at h
      simp only [Option.some.injEq, Prod.mk.injEq] at h
      obtain ⟨h1, h2⟩ := h
      obtain ⟨hcs, hpost⟩ := ih (h2 ▸ hc)
      exact ⟨by rw [← h1, List.cons_append, ← hcs], hpost⟩
    | none =>
      rw [hc] at h
      by_cases hdot : c = '.'
      · rw [if_pos hdot] at h
        simp only [Option.some.injEq, Prod.mk.injEq] at h
        obtain ⟨h1, h2⟩ := h
        subst h2
        exact ⟨by rw [← h1, hdot]; rfl, splitLastDot_eq_none.mp hc⟩
      · rw [if_neg hdot] at h
        simp at h

theorem splitLastDot_append {pre post : List Char} (h : '.' ∉ post) :
    splitLastDot (pre ++ '.' :: post) = some (pre, post) := by
  induction pre with
  | nil =>
    rw [List.nil_append, splitLastDot, splitLastDot_eq_none.mpr h]
    simp
  | cons c cs ih =>
    rw [List.cons_append, splitLastDot, ih]

theorem suffixCore_eq_jpg_iff (n : List Char) :
    suffixCore n = ['.', 'j', 'p', 'g'] ↔
      (['.', 'j', 'p', 'g'] <:+ n ∧ 4 < n.length) := by
  constructor
  · intro h
    unfold suffixCore at h
    cases hs : splitLastDot n with
    | none => rw [hs] at h; simp at h
    | some pr =>
      obtain ⟨pre, post⟩ := pr
      rw [hs] at h
      dsimp only at h
      by_cases he : pre = [] ∨ post = []
      · rw [if_pos he] at h; simp at h
      · rw [if_neg he] at h
        obtain ⟨hn, _⟩ := splitLastDot_eq_some hs
        have hpost : post = ['j', 'p', 'g'] := by
          simpa using h
        push_neg at he
        subst hpost
        refine ⟨⟨pre, by rw [hn]⟩, ?_⟩
        rw [hn, List.length_append]
        have : pre.length ≠ 0 := fun h0 => he.1 (List.length_eq_zero.mp h0)
        simp only [List.length_cons, List.length_nil]
        omega
  · rintro ⟨⟨t, ht⟩, hlen⟩
    have hn : n = t ++ '.' :: ['j', 'p', 'g'] := by rw [← ht]
    have htne : t ≠ [] := by
      intro h0
      rw [h0, List.nil_append] at ht
      rw [← ht] at hlen
      simp at hlen
    have hsp : splitLastDot n = some (t, ['j', 'p', 'g']) := by
      rw [hn]
      exact splitLastDot_append (by simp)
    unfold suffixCore
    rw [hsp]
    simp [htne]

theorem get?_length_sub_one {α : Type} (l : List α) (h : l ≠ []) :
    l.get? (l.length - 1) = some (l.getLast h) := by
  have hlt : l.length - 1 < l.length := by
    cases l with
    | nil => exact absurd rfl h
    | cons a t => simp
  rw [List.get?_eq_get hlt, List.getLast_eq_get]

theorem exceptMapList_ok_forall {α β : Type} {f : α → Except String β}
    {l : List α} {r : List β}
    (h : exceptMapList f l = Except.ok r) : ∀ x ∈ l, ∃ y, f x = Except.ok y := by
  induction l generalizing r with
  | nil => intro x hx; simp at hx
  | cons a t ih =>
    rw [exceptMapList] at h
    cases hfa : f a with
    | error e => rw [hfa] at h; simp at h
    | ok b =>
      rw [hfa] at h
      cases ht : exceptMapList f t with
      | error e => rw [ht] at h; simp at h
      | ok bs =>
        intro x hx
        rcases List.mem_cons.mp hx with rfl | hx'
        · exact ⟨b, hfa⟩
        · exact ih ht x hx'

theorem exceptMapList_ok_of_forall {α β : Type} {f : α → Except String β}
    {l : List α}
    (h : ∀ x ∈ l, ∃ y, f x = Except.ok y) :
    ∃ r, exceptMapList f l = Except.ok r := by
  induction l with
  | nil => exact ⟨[], rfl⟩
  | cons a t ih =>
    obtain ⟨b, hb⟩ := h a (List.mem_cons_self a t)
    obtain ⟨bs, hbs⟩ := ih (fun x hx => h x (List.mem_cons_of_mem a hx))
    exact ⟨b :: bs, by rw [exceptMapList, hb, hbs]⟩

theorem exceptMapList_ok_mem {α β : Type} {f : α → Except String β}
    {l : List α} {r : List β} {y : β}
    (h : exceptMapList f l = Except.ok r) (hy : y ∈ r) :
    ∃ x ∈ l, f x = Except.ok y := by
  induction l generalizing r with
  | nil =>
    simp only [exceptMapList, Except.ok.injEq] at h
    rw [← h] at hy
    simp at hy
  | cons a t ih =>
    rw [exceptMapList] at h
    cases hfa : f a with
    | error e => rw [hfa] at h; simp at h
    | ok b =>
      rw [hfa] at h
      cases ht : exceptMapList f t with
      | error e => rw [ht] at h; simp at h
      | ok bs =>
        rw [ht] at h
        simp only [Except.ok.injEq] at h
        rw [← h] at hy
        rcases List.mem_cons.mp hy with rfl | hy'
        · exact ⟨a, List.mem_cons_self a t, hfa⟩
        · obtain ⟨x, hx, hfx⟩ := ih ht hy'
          exact ⟨x, List.mem_cons_of_mem a hx, hfx⟩

theorem exceptMapList_error_of_mem {α β : Type} {f : α → Except String β}
    {l : List α} {x : α} {e : String}
    (hx : x ∈ l) (hfx : f x = Except.error e) :
    ∃ msg, exceptMapList f l = Except.error msg := by
  induction l with
  | nil => simp at hx
  | cons a t ih =>
    rcases List.mem_cons.mp hx with rfl | hx'
    · exact ⟨e, by rw [exceptMapList, hfx]⟩
    · cases hfa : f a with
      | error e' => exact ⟨e', by rw [exceptMapList, hfa]⟩
      | ok b =>
        obtain ⟨msg, hmsg⟩ := ih hx'
        exact ⟨msg, by rw [exceptMapList, hfa, hmsg]⟩

theorem mem_iterKeyZipper {α β : Type} {src : List α} {ref : List β}
    {key : α → String} {refK : β → String} {p : α × β}
    (h : p ∈ iterKeyZipper src ref key refK) :
    p.1 ∈ src ∧ p.2 ∈ ref ∧ refK p.2 = key p.1 := by
  unfold iterKeyZipper at h
  rw [List.mem_filterMap] at h
  obtain ⟨a, ha, hmap⟩ := h
  cases hf : ref.find? (fun b => refK b == key a) with
  | none => rw [hf] at hmap; simp at hmap
  | some b =>
    rw [hf] at hmap
    simp only [Option.map_some', Option.some.injEq] at hmap
    have hpred := List.find?_some hf
    have hbmem : b ∈ ref := List.mem_of_find?_eq_some hf
    rw [← hmap]
    exact ⟨ha, hbmem, by simpa using hpred⟩

theorem iterKeyZipper_total {α β : Type} {src : List α} {ref : List β}
    {key : α → String} {refK : β → String} {a : α} {b : β}
    (ha : a ∈ src) (hb : b ∈ ref) (hk : refK b = key a) :
    ∃ b₀, (a, b₀) ∈ iterKeyZipper src ref key refK := by
  cases hf : ref.find? (fun x => refK x == key a) with
  | none =>
    rw [List.find?_eq_none] at hf
    exact absurd (by simpa using hk) (hf b hb)
  | some b₀ =>
    refine ⟨b₀, ?_⟩
    unfold iterKeyZipper
    rw [List.mem_filterMap]
    exact ⟨a, ha, by rw [hf]; rfl⟩

theorem decode_ok_species {cats : List String} {r : ClsRec} {lv : LabelV} {sp : String}
    (h : decodeClassificationData cats r = Except.ok (lv, sp)) :
    sp = (if r.species = "1" then "cat" else "dog") := by
  unfold decodeClassificationData at h
  cases hi : pyInt r.label with
  | none => rw [hi] at h; simp at h
  | some v =>
    rw [hi] at h
    dsimp only at h
    cases hg : pyListGet cats (v - 1) with
    | none => rw [hg] at h; simp at h
    | some c =>
      rw [hg] at h
      dsimp only at h
      simp only [Except.ok.injEq, Prod.mk.injEq] at h
      exact h.2.symm

theorem collate_ok_spec {cats : List String} {dec : Option (String → String)}
    {p : (ClsRec × (String × String)) × (String × String)} {s : Sample}
    (h : collateAndDecodeSample cats dec p = Except.ok s) :
    s.image_path = p.2.1 ∧ s.segmentation_path = p.1.2.1 ∧
      s.species = (if p.1.1.species = "1" then "cat" else "dog") := by
  unfold collateAndDecodeSample at h
  cases hd : decodeClassificationData cats p.1.1 with
  | error e => rw [hd] at h; simp at h
  | ok x =>
    obtain ⟨lv, sp⟩ := x
    rw [hd] at h
    simp only [Except.ok.injEq] at h
    rw [← h]
    exact ⟨rfl, rfl, decode_ok_species hd⟩

theorem collate_ok_iff {cats : List String} {dec : Option (String → String)}
    {p : (ClsRec × (String × String)) × (String × String)} :
    (∃ s, collateAndDecodeSample cats dec p = Except.ok s) ↔
      (∃ x, decodeClassificationData cats p.1.1 = Except.ok x) := by
  unfold collateAndDecodeSample
  cases hd : decodeClassificationData cats p.1.1 with
  | error e => simp
  | ok x =>
    obtain ⟨lv, sp⟩ := x
    simp

theorem pyListGet_eq_none {α : Type} (l : List α) (i : Int)
    (h : i < -(l.length : Int) ∨ (l.length : Int) ≤ i) : pyListGet l i = none := by
  unfold pyListGet
  dsimp only
  rcases h with h | h
  · rw [if_pos (show i < 0 by omega), if_neg (show ¬ (0:Int) ≤ i + l.length by omega)]
  · rw [if_neg (show ¬ i < 0 by omega), if_pos (show (0:Int) ≤ i by omega)]
    exact List.get?_eq_none.mpr (by omega)

theorem pyListGet_neg_some {α : Type} (l : List α) (i : Int)
    (h1 : -(l.length : Int) ≤ i) (h2 : i < 0) : ∃ a, pyListGet l i = some a := by
  unfold pyListGet
  dsimp only
  rw [if_pos h2, if_pos (by omega)]
  have hlt : (i + l.length).toNat < l.length := by omega
  rw [List.get?_eq_get hlt]
  exact ⟨_, rfl⟩

theorem pyListGet_neg_one {α : Type} (l : List α) (h : l ≠ []) :
    pyListGet l (-1) = some (l.getLast h) := by
  have hlen : 1 ≤ l.length := by
    cases l with
    | nil => exact absurd rfl h
    | cons a t => simp
  unfold pyListGet
  dsimp only
  rw [if_pos (show (-1 : Int) < 0 by omega), if_pos (by omega)]
  have ht : ((-1 : Int) + l.length).toNat = l.length - 1 := by omega
  rw [ht, get?_length_sub_one l h]

theorem pyListGet_ofNat {α : Type} (l : List α) (n : Nat) :
    pyListGet l (n : Int) = l.get? n := by
  unfold pyListGet
  dsimp only
  rw [if_neg (show ¬ (n : Int) < 0 by omega), if_pos (show (0 : Int) ≤ (n : Int) by omega)]
  norm_num

theorem decode_error_of_out_of_range {cats : List String} {rec : ClsRec} {v : Int}
    (hv : pyInt rec.label = some v)
    (h : v - 1 < -(cats.length : Int) ∨ (cats.length : Int) ≤ v - 1) :
    ∃ msg, decodeClassificationData cats rec = Except.error msg := by
  unfold decodeClassificationData
  rw [hv]
  dsimp only
  rw [pyListGet_eq_none cats _ h]
  exact ⟨_, rfl⟩

/-! ## Claims -/

/-- C4: the Label Decoder computes label_index = int(label) - 1 and looks the
category up at that index; a lookup outside the range the category table
admits under Python indexing raises an error that propagates; in particular
label "37" with a table of length 37 yields the last entry of the table, and
with a table of length 36 it raises. -/
theorem c4_label_decoding (cats : List String) (rec : ClsRec) :
    (∀ v c, pyInt rec.label = some v → pyListGet cats (v - 1) = some c →
       ∃ sp, decodeClassificationData cats rec = Except.ok (⟨v - 1, c⟩, sp))
    ∧ (∀ v, pyInt rec.label = some v →
       (v - 1 < -(cats.length : Int) ∨ (cats.length : Int) ≤ v - 1) →
       ∃ msg, decodeClassificationData cats rec = Except.error msg)
    ∧ (rec.label = "37" → cats.length = 37 →
       ∃ hne : cats ≠ [], ∃ sp,
         decodeClassificationData cats rec = Except.ok (⟨36, cats.getLast hne⟩, sp))
    ∧ (rec.label = "37" → cats.length = 36 →
       ∃ msg, decodeClassificationData cats rec = Except.error msg) := by
  refine ⟨?_, ?_, ?_, ?_⟩
  · intro v c hv hc
    unfold decodeClassificationData
    rw [hv]
    dsimp only
    rw [hc]
    exact ⟨_, rfl⟩
  · intro v hv h
    exact decode_error_of_out_of_range hv h
  · intro h37 hlen
    have hne : cats ≠ [] := by
      intro h0
      rw [h0] at hlen
      simp at hlen
    have hv : pyInt rec.label = some 37 := by rw [h37]; rfl
    have hidx : (37 : Int) - 1 = ((36 : Nat) : Int) := by norm_num
    have hg : pyListGet cats ((37 : Int) - 1) = some (cats.getLast hne) := by
      rw [hidx, pyListGet_ofNat, show (36 : Nat) = cats.length - 1 by omega,
        get?_length_sub_one cats hne]
    have hdec : decodeClassificationData cats rec
        = Except.ok (⟨36, cats.getLast hne⟩,
            if rec.species = "1" then "cat" else "dog") := by
      unfold decodeClassificationData
      rw [hv]
      dsimp only
      rw [hg]
      norm_num
    exact ⟨hne, _, hdec⟩
  · intro h37 hlen
    have hv : pyInt rec.label = some 37 := by rw [h37]; rfl
    exact decode_error_of_out_of_range hv (by omega)

/-- C4 witness: the label field "37" with a category table of length 36
makes the decoder raise. -/
theorem c4_witness :
    ∃ msg, decodeClassificationData (List.replicate 36 "x") ⟨"img", "37", "1"⟩
      = Except.error msg :=
  (c4_label_decoding (List.replicate 36 "x") ⟨"img", "37", "1"⟩).2.2.2 rfl (by simp)

/-- C5 counterexample: the entry with path ".jpg" ends in ".jpg" as a string
yet the image filter rejects it, because the pathlib suffix of a file name
whose only dot is its leading character is empty. -/
theorem c5_counterexample :
    (['.', 'j', 'p', 'g'] <:+ (".jpg" : String).toList)
      ∧ filterImages (".jpg", "") = false :=
  ⟨⟨[], rfl⟩, rfl⟩

/-- C5 amended: the image filter accepts an entry iff the file name of its
path ends in ".jpg" and is longer than the bare ".jpg", that is, iff the
pathlib suffix of the file name is exactly ".jpg".  Hidden-file names such
as ".jpg" itself are rejected although the path string ends in ".jpg", and
a path whose final component is a file name ending in ".jpg" is accepted
even when the path string itself does not end in ".jpg". -/
theorem c5_image_filter (d : String × String) :
    filterImages d = true ↔
      (['.', 'j', 'p', 'g'] <:+ (pathName d.1).toList
        ∧ 4 < (pathName d.1).toList.length) := by
  rw [← suffixCore_eq_jpg_iff]
  unfold filterImages pySuffix
  rw [beq_iff_eq, String.ext_iff]

/-- C5 witness: a regular ".jpg" file is accepted. -/
theorem c5_witness : filterImages ("images/a.jpg", "") = true :=
  (c5_image_filter ("images/a.jpg", "")).mpr ⟨⟨['a'], rfl⟩, by decide⟩

/-- C6: the annotation classifier returns 0 for entries whose parent
directory is "annotations", 1 for "trimaps", and none for every other
parent, deciding purely on the path; entries classified none appear in
neither demultiplexer output. -/
theorem c6_annotation_classifier (d : String × String)
    (anns : List (String × String)) :
    (parentName d.1 = "annotations" → classifyAnns d = some 0)
    ∧ (parentName d.1 = "trimaps" → classifyAnns d = some 1)
    ∧ (parentName d.1 ≠ "annotations" → parentName d.1 ≠ "trimaps" →
        classifyAnns d = none)
    ∧ (classifyAnns d = none →
        d ∉ (demultiplex classifyAnns anns).1
          ∧ d ∉ (demultiplex classifyAnns anns).2) := by
  refine ⟨?_, ?_, ?_, ?_⟩
  · intro h
    unfold classifyAnns
    rw [if_pos h]
  · intro h
    unfold classifyAnns
    rw [if_neg (by rw [h]; decide), if_pos h]
  · intro h1 h2
    unfold classifyAnns
    rw [if_neg h1, if_neg h2]
  · intro h
    constructor <;>
    · unfold demultiplex
      rw [List.mem_filter]
      rintro ⟨-, hp⟩
      rw [h] at hp
      simp at hp

/-- C6 witness: an entry under the "annotations" directory is classified 0
and an entry under an unrecognized parent is in neither output stream. -/
theorem c6_witness :
    classifyAnns ("annotations/trainval.txt", "") = some 0 :=
  (c6_annotation_classifier ("annotations/trainval.txt", "") []).1 rfl

/-- C8: the segmentation filter rejects an entry iff the first character of
the file name of its path is a dot. -/
theorem c8_segmentation_filter (d : String × String) :
    filterSegmentations d = false ↔
      ∃ rest, (pathName d.1).toList = '.' :: rest := by
  unfold filterSegmentations pyStartswith
  cases hl : (pathName d.1).toList with
  | nil => simp [List.isPrefixOf]
  | cons c cs =>
    simp only [List.isPrefixOf, Bool.not_eq_false']
    constructor
    · intro h
      simp only [show (".".toList : List Char) = ['.'] from rfl] at h
      simp only [List.isPrefixOf, Bool.and_true] at h
      have hc : '.' = c := by simpa using h
      exact ⟨cs, by rw [← hc]⟩
    · rintro ⟨rest, hr⟩
      obtain ⟨rfl, rfl⟩ : c = '.' ∧ cs = rest := by
        constructor <;> [exact (List.cons.injEq .. ▸ hr).1; exact (List.cons.injEq .. ▸ hr).2]
      simp [List.isPrefixOf]

/-- C8 witness: a macOS metadata artifact "._catA.png" is rejected. -/
theorem c8_witness : filterSegmentations ("trimaps/._catA.png", "") = false :=
  (c8_segmentation_filter ("trimaps/._catA.png", "")).mpr ⟨"_catA.png".toList, rfl⟩

/-- C10: for a record whose label field is "0" the computed index is -1 and
Python negative indexing silently yields the last entry of the category
table; more generally every index reachable from a negative offset no
smaller than minus the table length decodes without reaching the error
branch. -/
theorem c10_negative_label_index (cats : List String) (hne : cats ≠ []) :
    (∀ rec : ClsRec, rec.label = "0" →
       ∃ sp, decodeClassificationData cats rec
         = Except.ok (⟨-1, cats.getLast hne⟩, sp))
    ∧ (∀ (rec : ClsRec) (v : Int), pyInt rec.label = some v →
       -(cats.length : Int) ≤ v - 1 → v - 1 < 0 →
       ∃ lv sp, decodeClassificationData cats rec = Except.ok (lv, sp)) := by
  constructor
  · intro rec h0
    have hv : pyInt rec.label = some 0 := by rw [h0]; rfl
    unfold decodeClassificationData
    rw [hv]
    dsimp only
    rw [show (0 : Int) - 1 = -1 by norm_num, pyListGet_neg_one cats hne]
    exact ⟨_, rfl⟩
  · intro rec v hv h1 h2
    obtain ⟨a, ha⟩ := pyListGet_neg_some cats (v - 1) h1 h2
    unfold decodeClassificationData
    rw [hv]
    dsimp only
    rw [ha]
    exact ⟨_, _, rfl⟩

/-- C10 witness: label "0" against a two-entry table decodes successfully. -/
theorem c10_witness :
    ∃ lv sp, decodeClassificationData ["A", "B"] ⟨"x", "0", "1"⟩
      = Except.ok (lv, sp) :=
  (c10_negative_label_index ["A", "B"] (by simp)).2 ⟨"x", "0", "1"⟩ 0 rfl
    (by norm_num) (by norm_num)

theorem makeDatapipe_ok_elim {split : String} {cats : List String}
    {dec : Option (String → String)} {images anns : List (String × String)}
    {samples : List Sample}
    (h : makeDatapipe split cats dec images anns = Except.ok samples) :
    ∃ rows, csvDictParse (((demultiplex classifyAnns anns).1).filter
        (fun d => pathName d.1 == split ++ ".txt")) = Except.ok rows
      ∧ exceptMapList (collateAndDecodeSample cats dec)
          (iterKeyZipper
            (iterKeyZipper rows
              (((demultiplex classifyAnns anns).2).filter filterSegmentations)
              (fun r => r.image_id) (fun e => pyStem e.1))
            (images.filter filterImages)
            (fun x => x.1.image_id) (fun e => pyStem e.1)) = Except.ok samples := by
  unfold makeDatapipe at h
  dsimp only at h
  cases hp : csvDictParse (((demultiplex classifyAnns anns).1).filter
      (fun d => pathName d.1 == split ++ ".txt")) with
  | error e => rw [hp] at h; exact absurd h (by simp)
  | ok rows => rw [hp] at h; exact ⟨rows, rfl, h⟩

theorem makeDatapipe_eq_of_parse_ok {split : String} {cats : List String}
    {dec : Option (String → String)} {images anns : List (String × String)}
    {rows : List ClsRec}
    (hp : csvDictParse (((demultiplex classifyAnns anns).1).filter
        (fun d => pathName d.1 == split ++ ".txt")) = Except.ok rows) :
    makeDatapipe split cats dec images anns
      = exceptMapList (collateAndDecodeSample cats dec)
          (iterKeyZipper
            (iterKeyZipper rows
              (((demultiplex classifyAnns anns).2).filter filterSegmentations)
              (fun r => r.image_id) (fun e => pyStem e.1))
            (images.filter filterImages)
            (fun x => x.1.image_id) (fun e => pyStem e.1)) := by
  unfold makeDatapipe
  dsimp only
  rw [hp]

theorem parseClsLine_error_of_badlen {line : String}
    (h : ((splitOnChar ' ' line.toList).map String.mk).length ≠ 4) :
    ∃ msg, parseClsLine line = Except.error msg := by
  unfold parseClsLine
  split
  · rename_i i l s b heq
    rw [heq] at h
    simp at h
  · exact ⟨_, rfl⟩

/-- C7: the decoded species is "cat" exactly when the species field is "1"
and "dog" otherwise, so any species code outside the two documented ones is
silently coerced to "dog" and every sample the pipeline emits carries a
species that is either "cat" or "dog". -/
theorem c7_species_mapping :
    (∀ (cats : List String) (rec : ClsRec) (lv : LabelV) (sp : String),
       decodeClassificationData cats rec = Except.ok (lv, sp) →
       sp = (if rec.species = "1" then "cat" else "dog")
         ∧ (sp = "cat" ∨ sp = "dog"))
    ∧ (∀ (split : String) (cats : List String) (dec : Option (String → String))
         (images anns : List (String × String)) (samples : List Sample),
       makeDatapipe split cats dec images anns = Except.ok samples →
       ∀ s ∈ samples, s.species = "cat" ∨ s.species = "dog") := by
  constructor
  · intro cats rec lv sp h
    have hsp := decode_ok_species h
    refine ⟨hsp, ?_⟩
    rw [hsp]
    by_cases h1 : rec.species = "1" <;> simp [h1]
  · intro split cats dec images anns samples h s hs
    obtain ⟨rows, hp, hmap⟩ := makeDatapipe_ok_elim h
    obtain ⟨p, hpmem, hcol⟩ := exceptMapList_ok_mem hmap hs
    have hspec := (collate_ok_spec hcol).2.2
    rw [hspec]
    by_cases h1 : p.1.1.species = "1" <;> simp [h1]

/-- C7 witness: the species code "3" decodes to "dog" without error. -/
theorem c7_witness :
    "dog" = (if ("3" : String) = "1" then "cat" else "dog")
      ∧ (("dog" : String) = "cat" ∨ ("dog" : String) = "dog") :=
  c7_species_mapping.1 ["A"] ⟨"x", "1", "3"⟩ ⟨0, "A"⟩ "dog" rfl

/-- C1: with split "trainval" and no decoder, the three raw entries of the
claim (a "trainval.txt" annotations entry carrying the line "catA 1 1 1", a
"catA.png" trimaps entry and a "catA.jpg" image entry) produce exactly one
sample, whose image path ends in "catA.jpg", whose segmentation path ends
in "catA.png" and whose species is "cat", for every nonempty category
table. -/
theorem c1_end_to_end (cats : List String) (hne : cats ≠ []) :
    ∃ s : Sample,
      makeDatapipe "trainval" cats none
        [("images/catA.jpg", "IMGBYTES")]
        [("annotations/trainval.txt", "catA 1 1 1"),
         ("annotations/trimaps/catA.png", "SEGBYTES")] = Except.ok [s]
      ∧ (['c', 'a', 't', 'A', '.', 'j', 'p', 'g'] <:+ s.image_path.toList)
      ∧ (['c', 'a', 't', 'A', '.', 'p', 'n', 'g'] <:+ s.segmentation_path.toList)
      ∧ s.species = "cat" := by
  obtain ⟨c, cs, rfl⟩ := List.exists_cons_of_ne_nil hne
  exact ⟨⟨⟨0, c⟩, "cat", "annotations/trimaps/catA.png", "SEGBYTES",
          "images/catA.jpg", "IMGBYTES"⟩, rfl,
    ⟨"images/".toList, rfl⟩, ⟨"annotations/trimaps/".toList, rfl⟩, rfl⟩

/-- C1 witness: the concrete run with a one-entry category table. -/
theorem c1_witness :
    ∃ s : Sample,
      makeDatapipe "trainval" ["Abyssinian"] none
        [("images/catA.jpg", "IMGBYTES")]
        [("annotations/trainval.txt", "catA 1 1 1"),
         ("annotations/trimaps/catA.png", "SEGBYTES")] = Except.ok [s]
      ∧ (['c', 'a', 't', 'A', '.', 'j', 'p', 'g'] <:+ s.image_path.toList)
      ∧ (['c', 'a', 't', 'A', '.', 'p', 'n', 'g'] <:+ s.segmentation_path.toList)
      ∧ s.species = "cat" :=
  c1_end_to_end ["Abyssinian"] (by simp)

/-- C9: building the pipeline twice from equal raw-entry sequences yields
equal ordered sample sequences; the embedded build is a pure function of
its inputs. -/
theorem c9_deterministic_rebuild (split : String) (cats : List String)
    (dec : Option (String → String))
    (images₁ anns₁ images₂ anns₂ : List (String × String))
    (h₁ : images₁ = images₂) (h₂ : anns₁ = anns₂) :
    makeDatapipe split cats dec images₁ anns₁
      = makeDatapipe split cats dec images₂ anns₂ := by
  rw [h₁, h₂]

/-- C9 witness: two builds from the same concrete inputs agree. -/
theorem c9_witness :
    makeDatapipe "trainval" ["Abyssinian"] none [("x.jpg", "I")]
        [("annotations/trainval.txt", "a 1 1 1")]
      = makeDatapipe "trainval" ["Abyssinian"] none [("x.jpg", "I")]
        [("annotations/trainval.txt", "a 1 1 1")] :=
  c9_deterministic_rebuild "trainval" ["Abyssinian"] none _ _ _ _ rfl rfl

/-- C3: a classification-list line with exactly four space-delimited fields
parses into the record of its first three fields; a line with any other
field count is a hard error, and that error propagates through the whole
pipeline build instead of being skipped. -/
theorem c3_classification_parsing :
    (∀ (line : String) (i l s b : String),
       (splitOnChar ' ' line.toList).map String.mk = [i, l, s, b] →
       parseClsLine line = Except.ok ⟨i, l, s⟩)
    ∧ (∀ line : String,
       ((splitOnChar ' ' line.toList).map String.mk).length ≠ 4 →
       ∃ msg, parseClsLine line = Except.error msg)
    ∧ (∀ (split : String) (cats : List String) (dec : Option (String → String))
         (images anns : List (String × String)) (e : String × String)
         (line : String),
       e ∈ anns → classifyAnns e = some 0 → pathName e.1 = split ++ ".txt" →
       line ∈ linesOf e.2 →
       ((splitOnChar ' ' line.toList).map String.mk).length ≠ 4 →
       ∃ msg, makeDatapipe split cats dec images anns = Except.error msg) := by
  refine ⟨?_, ?_, ?_⟩
  · intro line i l s b h
    unfold parseClsLine
    rw [h]
  · intro line h
    exact parseClsLine_error_of_badlen h
  · intro split cats dec images anns e line he hcls hname hline hlen
    obtain ⟨m0, hm0⟩ := parseClsLine_error_of_badlen hlen
    have hfile : ∃ m, parseClsFile e.2 = Except.error m := by
      unfold parseClsFile
      exact exceptMapList_error_of_mem hline hm0
    obtain ⟨m1, hm1⟩ := hfile
    have hm1' : (fun d : String × String => parseClsFile d.2) e = Except.error m1 := hm1
    have he0 : e ∈ (demultiplex classifyAnns anns).1 := by
      unfold demultiplex
      rw [List.mem_filter]
      exact ⟨he, by rw [hcls]; rfl⟩
    have he1 : e ∈ ((demultiplex classifyAnns anns).1).filter
        (fun d => pathName d.1 == split ++ ".txt") := by
      rw [List.mem_filter]
      exact ⟨he0, by rw [hname]; exact beq_self_eq_true _⟩
    obtain ⟨m2, hm2⟩ := @exceptMapList_error_of_mem (String × String) (List ClsRec)
      (fun d => parseClsFile d.2)
      (((demultiplex classifyAnns anns).1).filter
        (fun d => pathName d.1 == split ++ ".txt")) e m1 he1 hm1'
    refine ⟨m2, ?_⟩
    unfold makeDatapipe csvDictParse
    dsimp only
    rw [hm2]

/-- C3 witness: a three-field line makes the whole pipeline build error. -/
theorem c3_witness :
    ∃ msg, makeDatapipe "trainval" ["A"] none []
      [("annotations/trainval.txt", "catA 1 1")] = Except.error msg :=
  c3_classification_parsing.2.2 "trainval" ["A"] none []
    [("annotations/trainval.txt", "catA 1 1")]
    ("annotations/trainval.txt", "catA 1 1") "catA 1 1"
    (List.mem_singleton.mpr rfl) rfl rfl (by decide) (by decide)

/-- C2: inner-join drop semantics.  First, when every image entry for a
given id is removed from the image stream, a build that previously
succeeded still succeeds, raises nothing, and emits no sample whose image
path has that id as its stem.  Second, no partial samples exist: every
emitted sample is assembled from a parsed classification row, a
segmentation entry and an image entry, all three present in their streams
and agreeing on the id.  Third, an id missing from any one of the three
joined streams (the parsed classification rows of the split, the
annotation stream feeding the segmentation side, or the image stream) is
silently excluded: no emitted sample carries it. -/
theorem c2_inner_join_drop (split : String) (cats : List String)
    (dec : Option (String → String)) (images anns : List (String × String))
    (iid : String) (samples : List Sample) (rows : List ClsRec)
    (hok : makeDatapipe split cats dec images anns = Except.ok samples)
    (hrows : csvDictParse (((demultiplex classifyAnns anns).1).filter
        (fun d => pathName d.1 == split ++ ".txt")) = Except.ok rows) :
    (∃ samples',
      makeDatapipe split cats dec
        (images.filter (fun e => pyStem e.1 != iid)) anns = Except.ok samples'
      ∧ ∀ s ∈ samples', pyStem s.image_path ≠ iid)
    ∧ (∀ s ∈ samples,
        ∃ r ∈ rows,
        ∃ g ∈ ((demultiplex classifyAnns anns).2).filter filterSegmentations,
        ∃ m ∈ images.filter filterImages,
          r.image_id = pyStem g.1 ∧ r.image_id = pyStem m.1
            ∧ s.segmentation_path = g.1 ∧ s.image_path = m.1)
    ∧ (((∀ r ∈ rows, r.image_id ≠ iid) ∨ (∀ g ∈ anns, pyStem g.1 ≠ iid)
          ∨ (∀ m ∈ images, pyStem m.1 ≠ iid)) →
        ∀ s ∈ samples, pyStem s.image_path ≠ iid) := by
  obtain ⟨rows', hp, hmap⟩ := makeDatapipe_ok_elim hok
  have hre : rows' = rows := by
    rw [hp] at hrows
    exact Except.ok.inj hrows
  rw [hre] at hp hmap
  have hprov : ∀ s ∈ samples,
      ∃ r ∈ rows,
      ∃ g ∈ ((demultiplex classifyAnns anns).2).filter filterSegmentations,
      ∃ m ∈ images.filter filterImages,
        r.image_id = pyStem g.1 ∧ r.image_id = pyStem m.1
          ∧ s.segmentation_path = g.1 ∧ s.image_path = m.1 := by
    intro s hs
    obtain ⟨p, hpmem, hcol⟩ := exceptMapList_ok_mem hmap hs
    obtain ⟨h1, h2, hkey2⟩ := mem_iterKeyZipper hpmem
    obtain ⟨h11, h12, hkey1⟩ := mem_iterKeyZipper h1
    obtain ⟨hip, hsp, -⟩ := collate_ok_spec hcol
    exact ⟨p.1.1, h11, p.1.2, h12, p.2, h2, hkey1.symm, hkey2.symm, hsp, hip⟩
  refine ⟨?_, hprov, ?_⟩
  · have hcomm : (images.filter (fun e => pyStem e.1 != iid)).filter filterImages
        = (images.filter filterImages).filter (fun e => pyStem e.1 != iid) := by
      rw [List.filter_filter, List.filter_filter]
      congr 1
      funext a
      rw [Bool.and_comm]
    have hall : ∀ p ∈ iterKeyZipper
        (iterKeyZipper rows
          (((demultiplex classifyAnns anns).2).filter filterSegmentations)
          (fun r => r.image_id) (fun e => pyStem e.1))
        ((images.filter (fun e => pyStem e.1 != iid)).filter filterImages)
        (fun x => x.1.image_id) (fun e => pyStem e.1),
        ∃ s, collateAndDecodeSample cats dec p = Except.ok s := by
      intro p hpmem
      obtain ⟨h1, h2, hkey⟩ := mem_iterKeyZipper hpmem
      rw [hcomm] at h2
      have h2' : p.2 ∈ images.filter filterImages := List.mem_of_mem_filter h2
      obtain ⟨b₀, hb₀⟩ := @iterKeyZipper_total (ClsRec × (String × String))
        (String × String)
        (iterKeyZipper rows
          (((demultiplex classifyAnns anns).2).filter filterSegmentations)
          (fun r => r.image_id) (fun e => pyStem e.1))
        (images.filter filterImages)
        (fun x => x.1.image_id) (fun e => pyStem e.1) p.1 p.2 h1 h2' hkey
      have hok0 := exceptMapList_ok_forall hmap _ hb₀
      have hdec := collate_ok_iff.mp hok0
      exact collate_ok_iff.mpr hdec
    obtain ⟨samples', hs'⟩ := exceptMapList_ok_of_forall hall
    refine ⟨samples', ?_, ?_⟩
    · rw [@makeDatapipe_eq_of_parse_ok split cats dec
        (images.filter (fun e => pyStem e.1 != iid)) anns rows hp]
      exact hs'
    · intro s hs
      obtain ⟨p, hpmem, hcol⟩ := exceptMapList_ok_mem hs' hs
      obtain ⟨h1, h2, hkey⟩ := mem_iterKeyZipper hpmem
      rw [hcomm] at h2
      have hpred := (List.mem_filter.mp h2).2
      have himg : s.image_path = p.2.1 := (collate_ok_spec hcol).1
      rw [himg]
      simpa using hpred
  · intro hmiss s hs
    obtain ⟨r, hr, g, hg, m, hm, hrg, hrm, hsgp, hsip⟩ := hprov s hs
    intro heq
    rw [hsip] at heq
    rcases hmiss with hmiss | hmiss | hmiss
    · exact hmiss r hr (by rw [hrm]; exact heq)
    · have hg2 : g ∈ anns := by
        have hg1 : g ∈ (demultiplex classifyAnns anns).2 := List.mem_of_mem_filter hg
        unfold demultiplex at hg1
        exact List.mem_of_mem_filter hg1
      exact hmiss g hg2 (by rw [← hrg, hrm]; exact heq)
    · exact hmiss m (List.mem_of_mem_filter hm) heq

/-- C2 witness: dropping every "catA" image entry from a succeeding build
keeps it succeeding with no "catA" sample. -/
theorem c2_witness :
    ∃ samples',
      makeDatapipe "trainval" ["A", "B"] none
        ([("images/dogB.jpg", "I")].filter (fun e => pyStem e.1 != "catA"))
        [("annotations/trainval.txt", "dogB 2 2 1"),
         ("annotations/trimaps/dogB.png", "S")] = Except.ok samples'
      ∧ ∀ s ∈ samples', pyStem s.image_path ≠ "catA" :=
  (c2_inner_join_drop "trainval" ["A", "B"] none [("images/dogB.jpg", "I")]
    [("annotations/trainval.txt", "dogB 2 2 1"),
     ("annotations/trimaps/dogB.png", "S")] "catA"
    [⟨⟨1, "B"⟩, "dog", "annotations/trimaps/dogB.png", "S",
      "images/dogB.jpg", "I"⟩]
    [⟨"dogB", "2", "2"⟩] rfl rfl).1

end OxfordPet
